import Mathlib

/-!
Verification of mopidy/ext.py: the extension discovery, validation and
configuration-filtering pipeline.

The shallow embedding below translates the three pipeline functions of
`src/mopidy/ext.py` — `load_extensions`, `validate_extensions` and
`filter_enabled_extensions` — into pure Lean functions.  Python exceptions
are modelled with `Except PyExc`: a method that may raise is embedded as a
value of type `Except PyExc α` (its outcome when invoked), and a function
that lets exceptions propagate returns `Except PyExc β`.  The ambient
`pkg_resources` registry (iterated by `iter_entry_points`) is passed
explicitly as a list of entry points, and object identity — which Python
gives every freshly constructed extension instance — is modelled by an
`obj_id : Nat` field assigned from an allocation counter.
-/

namespace Mopidy

/-- Python exception values that can cross the boundaries of the unit:
`pkg_resources.DistributionNotFound`, `mopidy.exceptions.ExtensionError`,
`KeyError` and `ValueError` (from dict lookup and config coercion), and a
catch-all for any other exception type. -/
inductive PyExc where
  | distributionNotFound (msg : String)
  | extensionError (msg : String)
  | keyError (key : String)
  | valueError (msg : String)
  | other (msg : String)
deriving DecidableEq, Repr

instance {ε α : Type} [DecidableEq ε] [DecidableEq α] : DecidableEq (Except ε α) := fun a b =>
  match a, b with
  | .error e, .error f =>
    if h : e = f then .isTrue (by rw [h]) else .isFalse (fun hh => by cases hh; exact h rfl)
  | .error _, .ok _ => .isFalse (fun hh => by cases hh)
  | .ok _, .error _ => .isFalse (fun hh => by cases hh)
  | .ok x, .ok y =>
    if h : x = y then .isTrue (by rw [h]) else .isFalse (fun hh => by cases hh; exact h rfl)

/-- Decidable test: the embedded call returned normally. -/
def exceptOk {α : Type} : Except PyExc α → Bool
  | .ok _ => true
  | .error _ => false

/-- Decidable test: the embedded call raised `DistributionNotFound`. -/
def isDistributionNotFound : Except PyExc Unit → Bool
  | .error (.distributionNotFound _) => true
  | _ => false

/-- Decidable test: the embedded call raised `ExtensionError`. -/
def isExtensionError : Except PyExc Unit → Bool
  | .error (.extensionError _) => true
  | _ => false

/-- Decidable test on an exception value: is it an `ExtensionError`? -/
def isExtensionErrorExc : PyExc → Bool
  | .extensionError _ => true
  | _ => false

/-- The data an entry point's `load(...)` call produces once the extension
class is constructed: the `Extension` subclass attributes `dist_name`,
`ext_name`, `version`, together with the outcome that invoking the
instance's `validate_environment()` hook would have. -/
structure ExtensionData where
  dist_name : String
  ext_name : String
  version : String
  env_outcome : Except PyExc Unit
deriving DecidableEq, Repr

/-- A `pkg_resources` entry point (registration record): its registered
`name`, the outcome of calling `require()` on it, and the combined outcome
of `load(...)` followed by calling the returned extension class (factory
instantiation); either step raising is modelled as `load_outcome` being an
error. -/
structure EntryPoint where
  name : String
  require_outcome : Except PyExc Unit
  load_outcome : Except PyExc ExtensionData
deriving DecidableEq, Repr

/-- Invoke `entry_point.require()`: checks that the declared dependencies
of the distribution are installed, raising `DistributionNotFound` (or
another exception) otherwise. -/
def EntryPoint.require (ep : EntryPoint) : Except PyExc Unit :=
  ep.require_outcome

/-- Invoke `entry_point.load(require=flag)` and construct the extension:
with `require=True`, `pkg_resources` first runs the dependency check (so a
missing dependency raises here); with `require=False` the dependency check
is skipped entirely. -/
def EntryPoint.load (ep : EntryPoint) (require_deps : Bool) : Except PyExc ExtensionData :=
  if require_deps then
    match ep.require with
    | .error exc => .error exc
    | .ok _ => ep.load_outcome
  else ep.load_outcome

/-- A constructed extension instance as `load_extensions` produces it:
the class attributes, the outcome of its `validate_environment()` hook,
the `entry_point` attribute attached by discovery, and `obj_id`, the
Python object identity of this fresh instance. -/
structure Extension where
  obj_id : Nat
  dist_name : String
  ext_name : String
  version : String
  validate_environment : Except PyExc Unit
  entry_point : EntryPoint
deriving DecidableEq, Repr

/-- Identity erasure: replace an instance's object identity by `0`,
keeping every attribute the loop logic reads.  Used to state that the
pipeline's behaviour does not depend on object identities. -/
def eraseId (e : Extension) : Extension :=
  { e with obj_id := 0 }

/-- Embedding of `load_extensions()`.  The ambient registry
(`pkg_resources.iter_entry_points('mopidy.ext')`) is the explicit
`registry` argument; `base` is the allocation counter supplying fresh
object identities.  For each entry point in enumeration order the source
runs `extension_class = entry_point.load(require=False)`, constructs
`extension = extension_class()` (both steps folded into `load false`; an
exception propagates), sets `extension.entry_point = entry_point` and
appends the instance to the result. -/
def load_extensions : List EntryPoint → Nat → Except PyExc (List Extension)
  | [], _ => .ok []
  | ep :: rest, base =>
    match ep.load false with
    | .error exc => .error exc
    | .ok data =>
      let extension : Extension :=
        { obj_id := base, dist_name := data.dist_name, ext_name := data.ext_name,
          version := data.version, validate_environment := data.env_outcome,
          entry_point := ep }
      (load_extensions rest (base + 1)).map (fun l => extension :: l)

/-- Embedding of `validate_extensions(installed_extensions)`.  Per
extension, in source order: if `ext_name != entry_point.name` the
extension is skipped (`continue`); otherwise `entry_point.require()` runs,
a raised `DistributionNotFound` skips the extension and any other raised
exception propagates; otherwise `validate_environment()` runs, a raised
`ExtensionError` skips the extension and any other raised exception
propagates; otherwise the extension is appended to the valid list. -/
def validate_extensions : List Extension → Except PyExc (List Extension)
  | [] => .ok []
  | e :: rest =>
    if e.ext_name ≠ e.entry_point.name then
      validate_extensions rest
    else
      match e.entry_point.require with
      | .error (.distributionNotFound _) => validate_extensions rest
      | .error exc => .error exc
      | .ok _ =>
        match e.validate_environment with
        | .error (.extensionError _) => validate_extensions rest
        | .error exc => .error exc
        | .ok _ => (validate_extensions rest).map (fun l => e :: l)

/-- Decidable predicate: the extension passes all three validator checks
(identity, dependency, environment) and is kept by `validate_extensions`. -/
def passesAllChecks (e : Extension) : Bool :=
  (e.ext_name == e.entry_point.name) &&
    exceptOk e.entry_point.require &&
    exceptOk e.validate_environment

/-- The exception, if any, that processing this one extension inside the
`validate_extensions` loop lets propagate: an unexpected exception from
`require()` (anything but `DistributionNotFound`) or from
`validate_environment()` (anything but `ExtensionError`).  `none` means
the loop body finishes quietly for this extension, keeping or skipping it. -/
def stepRaises (e : Extension) : Option PyExc :=
  if e.ext_name ≠ e.entry_point.name then none
  else
    match e.entry_point.require with
    | .error (.distributionNotFound _) => none
    | .error exc => some exc
    | .ok _ =>
      match e.validate_environment with
      | .error (.extensionError _) => none
      | .error exc => some exc
      | .ok _ => none

/-- The three documented reasons `validate_extensions` drops an
extension. -/
inductive DropReason where
  | identityMismatch
  | dependencyNotFound
  | environmentError
deriving DecidableEq, Repr

/-- The reason — at most one, determined by the first failing check — for
which `validate_extensions` drops this extension; `none` when the loop
body either keeps the extension or raises. -/
def dropReason (e : Extension) : Option DropReason :=
  if e.ext_name ≠ e.entry_point.name then some .identityMismatch
  else
    match e.entry_point.require with
    | .error (.distributionNotFound _) => some .dependencyNotFound
    | .error _ => none
    | .ok _ =>
      match e.validate_environment with
      | .error (.extensionError _) => some .environmentError
      | .error _ => none
      | .ok _ => none

/-- A record of one method invocation the validator performs on an
extension instance, tagged with the instance's object identity. -/
inductive MethodCall where
  | requireCall (objId : Nat)
  | envCall (objId : Nat)
deriving DecidableEq, Repr

/-- Instrumented embedding of `validate_extensions`: identical control
flow, additionally recording each `entry_point.require()` and
`validate_environment()` invocation in source order.  The first component
coincides with `validate_extensions` (proved below). -/
def validate_extensions_traced :
    List Extension → Except PyExc (List Extension) × List MethodCall
  | [] => (.ok [], [])
  | e :: rest =>
    if e.ext_name ≠ e.entry_point.name then
      validate_extensions_traced rest
    else
      match e.entry_point.require with
      | .error (.distributionNotFound _) =>
        ((validate_extensions_traced rest).1,
          .requireCall e.obj_id :: (validate_extensions_traced rest).2)
      | .error exc => (.error exc, [.requireCall e.obj_id])
      | .ok _ =>
        match e.validate_environment with
        | .error (.extensionError _) =>
          ((validate_extensions_traced rest).1,
            .requireCall e.obj_id :: .envCall e.obj_id :: (validate_extensions_traced rest).2)
        | .error exc => (.error exc, [.requireCall e.obj_id, .envCall e.obj_id])
        | .ok _ =>
          ((validate_extensions_traced rest).1.map (fun l => e :: l),
            .requireCall e.obj_id :: .envCall e.obj_id :: (validate_extensions_traced rest).2)

/-- A raw configuration section: a mapping from option names to raw string
values, embedded as an association list (first binding wins, as in a
Python dict that cannot hold duplicate keys). -/
abbrev ConfigSection := List (String × String)

/-- The raw configuration: a mapping from section (extension) names to
sections. -/
abbrev RawConfig := List (String × ConfigSection)

/-- Python `mapping[key]`: the value bound to `key`, or a raised
`KeyError` when the key is absent. -/
def lookupKey {α : Type} (m : List (String × α)) (key : String) : Except PyExc α :=
  match m.find? (fun p => p.1 == key) with
  | some p => .ok p.2
  | none => .error (.keyError key)

/-- Modelled from the spec: `config_lib.Boolean().deserialize`, from the
configuration subsystem (`mopidy.config`), is not part of the source under
study.  Per the spec it accepts a small fixed vocabulary of truthy/falsy
literal representations and treats any other value as a configuration
error that propagates (a raised `ValueError`).  We fix the canonical
vocabulary: `1`, `yes`, `true`, `on` are true; `0`, `no`, `false`, `off`
are false. -/
def Boolean.deserialize (value : String) : Except PyExc Bool :=
  if value == "1" || value == "yes" || value == "true" || value == "on" then
    .ok true
  else if value == "0" || value == "no" || value == "false" || value == "off" then
    .ok false
  else
    .error (.valueError value)

/-- The raw `enabled` value for section `name`: embedding of the source
expression `raw_config[extension.ext_name]['enabled']`, either dict lookup
raising `KeyError` when the key is absent. -/
def lookupEnabledName (raw_config : RawConfig) (name : String) : Except PyExc String := do
  let sec ← lookupKey raw_config name
  lookupKey sec "enabled"

/-- The raw `enabled` value for an extension. -/
def lookupEnabled (raw_config : RawConfig) (e : Extension) : Except PyExc String :=
  lookupEnabledName raw_config e.ext_name

/-- Classification of a section name by the configuration: look up the raw
`enabled` value and coerce it with `Boolean.deserialize`.  This is exactly
what the `filter_enabled_extensions` loop body computes for an extension,
and it depends only on the extension's `ext_name`. -/
def classifyName (raw_config : RawConfig) (name : String) : Except PyExc Bool := do
  let value ← lookupEnabledName raw_config name
  Boolean.deserialize value

/-- Classification of an extension by the configuration: the source
expression `boolean.deserialize(raw_config[extension.ext_name]['enabled'])`. -/
def classify (raw_config : RawConfig) (e : Extension) : Except PyExc Bool :=
  classifyName raw_config e.ext_name

/-- Embedding of the `filter_enabled_extensions` loop, returning every
list the source builds: `(enabled_extensions, enabled_names,
disabled_names)`.  Per extension in input order the raw `enabled` value is
looked up and coerced (`KeyError` and `ValueError` propagate, as the
source's TODO comment notes); a true value appends the extension to
`enabled_extensions` and its name to `enabled_names`, a false value
appends the name to `disabled_names`. -/
def filterEnabledAux (raw_config : RawConfig) :
    List Extension → Except PyExc (List Extension × List String × List String)
  | [] => .ok ([], [], [])
  | e :: rest => do
    let b ← classify raw_config e
    let (es, en, dn) ← filterEnabledAux raw_config rest
    if b then
      pure (e :: es, e.ext_name :: en, dn)
    else
      pure (es, en, e.ext_name :: dn)

/-- Embedding of `filter_enabled_extensions(raw_config, extensions)`: the
function's return value, the `enabled_extensions` list (the name lists are
only logged). -/
def filter_enabled_extensions (raw_config : RawConfig) (extensions : List Extension) :
    Except PyExc (List Extension) :=
  (filterEnabledAux raw_config extensions).map (fun t => t.1)

/-- The full discover → validate → filter pipeline, reduced to the
enabled-name list it determines: run `load_extensions` against `registry`
with allocation counter `base`, validate, filter by `raw_config`, and read
off the names of the enabled extensions. -/
def pipeline (registry : List EntryPoint) (raw_config : RawConfig) (base : Nat) :
    Except PyExc (List String) := do
  let installed ← load_extensions registry base
  let valid ← validate_extensions installed
  let enabled ← filter_enabled_extensions raw_config valid
  pure (enabled.map Extension.ext_name)

/-- Decidable test on an exception value: is it a `DistributionNotFound`? -/
def isDistributionNotFoundExc : PyExc → Bool
  | .distributionNotFound _ => true
  | _ => false

theorem except_map_map {α β γ : Type} (x : Except PyExc α) (f : α → β) (g : β → γ) :
    (x.map f).map g = x.map (fun a => g (f a)) := by
  cases x <;> rfl

theorem validate_nil : validate_extensions [] = .ok [] := rfl

theorem validate_cons_mismatch {e : Extension} {rest : List Extension}
    (h : e.ext_name ≠ e.entry_point.name) :
    validate_extensions (e :: rest) = validate_extensions rest := by
  simp [validate_extensions, h]

theorem validate_cons_depmissing {e : Extension} {rest : List Extension} {m : String}
    (h : e.ext_name = e.entry_point.name)
    (hr : e.entry_point.require = .error (.distributionNotFound m)) :
    validate_extensions (e :: rest) = validate_extensions rest := by
  simp [validate_extensions, h, hr]

theorem validate_cons_require_raises {e : Extension} {rest : List Extension} {exc : PyExc}
    (h : e.ext_name = e.entry_point.name)
    (hr : e.entry_point.require = .error exc)
    (hx : isDistributionNotFoundExc exc = false) :
    validate_extensions (e :: rest) = .error exc := by
  cases exc <;> simp_all [validate_extensions, isDistributionNotFoundExc]

theorem validate_cons_env_exterror {e : Extension} {rest : List Extension} {m : String}
    (h : e.ext_name = e.entry_point.name)
    (hr : e.entry_point.require = .ok ())
    (he : e.validate_environment = .error (.extensionError m)) :
    validate_extensions (e :: rest) = validate_extensions rest := by
  simp [validate_extensions, h, hr, he]

theorem validate_cons_env_raises {e : Extension} {rest : List Extension} {exc : PyExc}
    (h : e.ext_name = e.entry_point.name)
    (hr : e.entry_point.require = .ok ())
    (he : e.validate_environment = .error exc)
    (hx : isExtensionErrorExc exc = false) :
    validate_extensions (e :: rest) = .error exc := by
  cases exc <;> simp_all [validate_extensions, isExtensionErrorExc]

theorem validate_cons_pass {e : Extension} {rest : List Extension}
    (h : e.ext_name = e.entry_point.name)
    (hr : e.entry_point.require = .ok ())
    (he : e.validate_environment = .ok ()) :
    validate_extensions (e :: rest) = (validate_extensions rest).map (fun l => e :: l) := by
  simp [validate_extensions, h, hr, he]

theorem traced_nil : validate_extensions_traced [] = (.ok [], []) := rfl

theorem traced_cons_mismatch {e : Extension} {rest : List Extension}
    (h : e.ext_name ≠ e.entry_point.name) :
    validate_extensions_traced (e :: rest) = validate_extensions_traced rest := by
  simp [validate_extensions_traced, h]

theorem traced_cons_depmissing {e : Extension} {rest : List Extension} {m : String}
    (h : e.ext_name = e.entry_point.name)
    (hr : e.entry_point.require = .error (.distributionNotFound m)) :
    validate_extensions_traced (e :: rest) =
      ((validate_extensions_traced rest).1,
        .requireCall e.obj_id :: (validate_extensions_traced rest).2) := by
  simp [validate_extensions_traced, h, hr]

theorem traced_cons_require_raises {e : Extension} {rest : List Extension} {exc : PyExc}
    (h : e.ext_name = e.entry_point.name)
    (hr : e.entry_point.require = .error exc)
    (hx : isDistributionNotFoundExc exc = false) :
    validate_extensions_traced (e :: rest) = (.error exc, [.requireCall e.obj_id]) := by
  cases exc <;> simp_all [validate_extensions_traced, isDistributionNotFoundExc]

theorem traced_cons_env_exterror {e : Extension} {rest : List Extension} {m : String}
    (h : e.ext_name = e.entry_point.name)
    (hr : e.entry_point.require = .ok ())
    (he : e.validate_environment = .error (.extensionError m)) :
    validate_extensions_traced (e :: rest) =
      ((validate_extensions_traced rest).1,
        .requireCall e.obj_id :: .envCall e.obj_id :: (validate_extensions_traced rest).2) := by
  simp [validate_extensions_traced, h, hr, he]

theorem traced_cons_env_raises {e : Extension} {rest : List Extension} {exc : PyExc}
    (h : e.ext_name = e.entry_point.name)
    (hr : e.entry_point.require = .ok ())
    (he : e.validate_environment = .error exc)
    (hx : isExtensionErrorExc exc = false) :
    validate_extensions_traced (e :: rest) =
      (.error exc, [.requireCall e.obj_id, .envCall e.obj_id]) := by
  cases exc <;> simp_all [validate_extensions_traced, isExtensionErrorExc]

theorem traced_cons_pass {e : Extension} {rest : List Extension}
    (h : e.ext_name = e.entry_point.name)
    (hr : e.entry_point.require = .ok ())
    (he : e.validate_environment = .ok ()) :
    validate_extensions_traced (e :: rest) =
      ((validate_extensions_traced rest).1.map (fun l => e :: l),
        .requireCall e.obj_id :: .envCall e.obj_id :: (validate_extensions_traced rest).2) := by
  simp [validate_extensions_traced, h, hr, he]

theorem load_nil (base : Nat) : load_extensions [] base = .ok [] := rfl

theorem load_cons_error {ep : EntryPoint} {rest : List EntryPoint} {exc : PyExc} (base : Nat)
    (h : ep.load false = .error exc) :
    load_extensions (ep :: rest) base = .error exc := by
  simp [load_extensions, h]

theorem load_cons_ok {ep : EntryPoint} {rest : List EntryPoint} {data : ExtensionData}
    (base : Nat) (h : ep.load false = .ok data) :
    load_extensions (ep :: rest) base =
      (load_extensions rest (base + 1)).map (fun l =>
        ({ obj_id := base, dist_name := data.dist_name, ext_name := data.ext_name,
           version := data.version, validate_environment := data.env_outcome,
           entry_point := ep } : Extension) :: l) := by
  simp [load_extensions, h]

theorem filterAux_nil (cfg : RawConfig) : filterEnabledAux cfg [] = .ok ([], [], []) := rfl

theorem filterAux_cons_error {cfg : RawConfig} {e : Extension} {rest : List Extension}
    {exc : PyExc} (hc : classify cfg e = .error exc) :
    filterEnabledAux cfg (e :: rest) = .error exc := by
  simp [filterEnabledAux, hc, Bind.bind, Except.bind]

theorem filterAux_cons_ok_error {cfg : RawConfig} {e : Extension} {rest : List Extension}
    {b : Bool} {exc : PyExc} (hc : classify cfg e = .ok b)
    (hrec : filterEnabledAux cfg rest = .error exc) :
    filterEnabledAux cfg (e :: rest) = .error exc := by
  simp [filterEnabledAux, hc, hrec, Bind.bind, Except.bind]

theorem filterAux_cons_ok_ok {cfg : RawConfig} {e : Extension} {rest : List Extension}
    {b : Bool} {es : List Extension} {en dn : List String}
    (hc : classify cfg e = .ok b)
    (hrec : filterEnabledAux cfg rest = .ok (es, en, dn)) :
    filterEnabledAux cfg (e :: rest) =
      (if b then .ok (e :: es, e.ext_name :: en, dn) else .ok (es, en, e.ext_name :: dn)) := by
  cases b <;> simp [filterEnabledAux, hc, hrec, Bind.bind, Except.bind, pure, Except.pure]

theorem validate_quiet : ∀ (exts : List Extension), (∀ e ∈ exts, stepRaises e = none) →
    validate_extensions exts = .ok (exts.filter passesAllChecks) := by
  intro exts
  induction exts with
  | nil => intro _; rfl
  | cons e rest ih =>
    intro hq
    have hqe := hq e (by simp)
    have hqr : ∀ x ∈ rest, stepRaises x = none := fun x hx => hq x (by simp [hx])
    by_cases hname : e.ext_name = e.entry_point.name
    · rcases hreq : e.entry_point.require with exc | u
      · rcases exc with m | m | m | m | m
        on_goal 1 =>
          rw [validate_cons_depmissing hname hreq, ih hqr]
          simp [List.filter_cons, passesAllChecks, hname, hreq, exceptOk]
        all_goals simp [stepRaises, hname, hreq] at hqe
      · cases u
        rcases henv : e.validate_environment with exc | u
        · rcases exc with m | m | m | m | m
          on_goal 2 =>
            rw [validate_cons_env_exterror hname hreq henv, ih hqr]
            simp [List.filter_cons, passesAllChecks, hname, hreq, henv, exceptOk]
          all_goals simp [stepRaises, hname, hreq, henv] at hqe
        · cases u
          rw [validate_cons_pass hname hreq henv, ih hqr]
          simp [List.filter_cons, passesAllChecks, hname, hreq, henv, exceptOk, Except.map]
    · rw [validate_cons_mismatch hname, ih hqr]
      simp [List.filter_cons, passesAllChecks, hname]

theorem validate_ok_quiet : ∀ {exts valid : List Extension},
    validate_extensions exts = .ok valid → ∀ e ∈ exts, stepRaises e = none := by
  intro exts
  induction exts with
  | nil => intro valid _ x hx; cases hx
  | cons e rest ih =>
    intro valid h x hx
    by_cases hname : e.ext_name = e.entry_point.name
    · rcases hreq : e.entry_point.require with exc | u
      · rcases exc with m | m | m | m | m
        on_goal 1 =>
          rw [validate_cons_depmissing hname hreq] at h
          rcases List.mem_cons.mp hx with rfl | hx'
          · simp [stepRaises, hname, hreq]
          · exact ih h x hx'
        all_goals
          rw [validate_cons_require_raises hname hreq (by simp [isDistributionNotFoundExc])] at h
          simp at h
      · cases u
        rcases henv : e.validate_environment with exc | u
        · rcases exc with m | m | m | m | m
          on_goal 2 =>
            rw [validate_cons_env_exterror hname hreq henv] at h
            rcases List.mem_cons.mp hx with rfl | hx'
            · simp [stepRaises, hname, hreq, henv]
            · exact ih h x hx'
          all_goals
            rw [validate_cons_env_raises hname hreq henv (by simp [isExtensionErrorExc])] at h
            simp at h
        · cases u
          rw [validate_cons_pass hname hreq henv] at h
          rcases hrec : validate_extensions rest with exc | l
          · rw [hrec] at h
            simp [Except.map] at h
          · rcases List.mem_cons.mp hx with rfl | hx'
            · simp [stepRaises, hname, hreq, henv]
            · exact ih hrec x hx'
    · rw [validate_cons_mismatch hname] at h
      rcases List.mem_cons.mp hx with rfl | hx'
      · simp [stepRaises, hname]
      · exact ih h x hx'

theorem validate_ok_filter {exts valid : List Extension}
    (h : validate_extensions exts = .ok valid) :
    valid = exts.filter passesAllChecks := by
  have hq := validate_ok_quiet h
  have h2 := validate_quiet exts hq
  rw [h] at h2
  injection h2

theorem traced_fst : ∀ (exts : List Extension),
    (validate_extensions_traced exts).1 = validate_extensions exts := by
  intro exts
  induction exts with
  | nil => rfl
  | cons e rest ih =>
    by_cases hname : e.ext_name = e.entry_point.name
    · rcases hreq : e.entry_point.require with exc | u
      · rcases exc with m | m | m | m | m
        on_goal 1 =>
          rw [traced_cons_depmissing hname hreq, validate_cons_depmissing hname hreq]
          exact ih
        all_goals
          rw [traced_cons_require_raises hname hreq (by simp [isDistributionNotFoundExc]),
            validate_cons_require_raises hname hreq (by simp [isDistributionNotFoundExc])]
      · cases u
        rcases henv : e.validate_environment with exc | u
        · rcases exc with m | m | m | m | m
          on_goal 2 =>
            rw [traced_cons_env_exterror hname hreq henv,
              validate_cons_env_exterror hname hreq henv]
            exact ih
          all_goals
            rw [traced_cons_env_raises hname hreq henv (by simp [isExtensionErrorExc]),
              validate_cons_env_raises hname hreq henv (by simp [isExtensionErrorExc])]
        · cases u
          rw [traced_cons_pass hname hreq henv, validate_cons_pass hname hreq henv]
          show (validate_extensions_traced rest).1.map _ = _
          rw [ih]
    · rw [traced_cons_mismatch hname, validate_cons_mismatch hname]
      exact ih

theorem trace_requireCall_mem : ∀ {exts : List Extension} {n : Nat},
    MethodCall.requireCall n ∈ (validate_extensions_traced exts).2 →
    ∃ e, e ∈ exts ∧ e.obj_id = n ∧ e.ext_name = e.entry_point.name := by
  intro exts
  induction exts with
  | nil => intro n h; simp [traced_nil] at h
  | cons e rest ih =>
    intro n h
    by_cases hname : e.ext_name = e.entry_point.name
    · rcases hreq : e.entry_point.require with exc | u
      · rcases exc with m | m | m | m | m
        on_goal 1 =>
          rw [traced_cons_depmissing hname hreq] at h
          rcases List.mem_cons.mp h with heq | h'
          · injection heq with hn
            exact ⟨e, by simp, hn.symm, hname⟩
          · obtain ⟨x, hx, hid, hnm⟩ := ih h'
            exact ⟨x, by simp [hx], hid, hnm⟩
        all_goals
          rw [traced_cons_require_raises hname hreq (by simp [isDistributionNotFoundExc])] at h
          rcases List.mem_cons.mp h with heq | h'
          · injection heq with hn
            exact ⟨e, by simp, hn.symm, hname⟩
          · simp at h'
      · cases u
        rcases henv : e.validate_environment with exc | u
        · rcases exc with m | m | m | m | m
          on_goal 2 =>
            rw [traced_cons_env_exterror hname hreq henv] at h
            rcases List.mem_cons.mp h with heq | h'
            · injection heq with hn
              exact ⟨e, by simp, hn.symm, hname⟩
            · rcases List.mem_cons.mp h' with heq | h''
              · cases heq
              · obtain ⟨x, hx, hid, hnm⟩ := ih h''
                exact ⟨x, by simp [hx], hid, hnm⟩
          all_goals
            rw [traced_cons_env_raises hname hreq henv (by simp [isExtensionErrorExc])] at h
            rcases List.mem_cons.mp h with heq | h'
            · injection heq with hn
              exact ⟨e, by simp, hn.symm, hname⟩
            · simp at h'
        · cases u
          rw [traced_cons_pass hname hreq henv] at h
          rcases List.mem_cons.mp h with heq | h'
          · injection heq with hn
            exact ⟨e, by simp, hn.symm, hname⟩
          · rcases List.mem_cons.mp h' with heq | h''
            · cases heq
            · obtain ⟨x, hx, hid, hnm⟩ := ih h''
              exact ⟨x, by simp [hx], hid, hnm⟩
    · rw [traced_cons_mismatch hname] at h
      obtain ⟨x, hx, hid, hnm⟩ := ih h
      exact ⟨x, by simp [hx], hid, hnm⟩

theorem trace_envCall_mem : ∀ {exts : List Extension} {n : Nat},
    MethodCall.envCall n ∈ (validate_extensions_traced exts).2 →
    ∃ e, e ∈ exts ∧ e.obj_id = n ∧ e.ext_name = e.entry_point.name ∧
      e.entry_point.require = .ok () := by
  intro exts
  induction exts with
  | nil => intro n h; simp [traced_nil] at h
  | cons e rest ih =>
    intro n h
    by_cases hname : e.ext_name = e.entry_point.name
    · rcases hreq : e.entry_point.require with exc | u
      · rcases exc with m | m | m | m | m
        on_goal 1 =>
          rw [traced_cons_depmissing hname hreq] at h
          rcases List.mem_cons.mp h with heq | h'
          · cases heq
          · obtain ⟨x, hx, hid, hnm, hro⟩ := ih h'
            exact ⟨x, by simp [hx], hid, hnm, hro⟩
        all_goals
          rw [traced_cons_require_raises hname hreq (by simp [isDistributionNotFoundExc])] at h
          rcases List.mem_cons.mp h with heq | h'
          · cases heq
          · simp at h'
      · cases u
        rcases henv : e.validate_environment with exc | u
        · rcases exc with m | m | m | m | m
          on_goal 2 =>
            rw [traced_cons_env_exterror hname hreq henv] at h
            rcases List.mem_cons.mp h with heq | h'
            · cases heq
            · rcases List.mem_cons.mp h' with heq | h''
              · injection heq with hn
                exact ⟨e, by simp, hn.symm, hname, hreq⟩
              · obtain ⟨x, hx, hid, hnm, hro⟩ := ih h''
                exact ⟨x, by simp [hx], hid, hnm, hro⟩
          all_goals
            rw [traced_cons_env_raises hname hreq henv (by simp [isExtensionErrorExc])] at h
            rcases List.mem_cons.mp h with heq | h'
            · cases heq
            · rcases List.mem_cons.mp h' with heq | h''
              · injection heq with hn
                exact ⟨e, by simp, hn.symm, hname, hreq⟩
              · simp at h''
        · cases u
          rw [traced_cons_pass hname hreq henv] at h
          rcases List.mem_cons.mp h with heq | h'
          · cases heq
          · rcases List.mem_cons.mp h' with heq | h''
            · injection heq with hn
              exact ⟨e, by simp, hn.symm, hname, hreq⟩
            · obtain ⟨x, hx, hid, hnm, hro⟩ := ih h''
              exact ⟨x, by simp [hx], hid, hnm, hro⟩
    · rw [traced_cons_mismatch hname] at h
      obtain ⟨x, hx, hid, hnm, hro⟩ := ih h
      exact ⟨x, by simp [hx], hid, hnm, hro⟩

theorem classify_eq_classifyName (cfg : RawConfig) (e : Extension) :
    classify cfg e = classifyName cfg e.ext_name := rfl

theorem classify_error_of_lookup {cfg : RawConfig} {e : Extension} {exc : PyExc}
    (h : lookupEnabled cfg e = .error exc) : classify cfg e = .error exc := by
  have h' : lookupEnabledName cfg e.ext_name = .error exc := h
  simp [classify, classifyName, h', Bind.bind, Except.bind]

theorem filterAux_ok_elim {cfg : RawConfig} : ∀ {exts es : List Extension} {en dn : List String},
    filterEnabledAux cfg exts = .ok (es, en, dn) →
    es.Sublist exts ∧
    en = es.map Extension.ext_name ∧
    (∀ n ∈ en, classifyName cfg n = .ok true) ∧
    (∀ n ∈ dn, classifyName cfg n = .ok false) ∧
    (∀ n, (n ∈ en ∨ n ∈ dn) ↔ n ∈ exts.map Extension.ext_name) := by
  intro exts
  induction exts with
  | nil =>
    intro es en dn h
    rw [filterAux_nil] at h
    injection h with h
    injection h with h1 h
    injection h with h2 h3
    subst h1; subst h2; subst h3
    refine ⟨List.Sublist.refl _, rfl, by simp, by simp, by simp⟩
  | cons e rest ih =>
    intro es en dn h
    rcases hc : classify cfg e with exc | b
    · rw [filterAux_cons_error hc] at h
      simp at h
    · rcases hrec : filterEnabledAux cfg rest with exc | t
      · rw [filterAux_cons_ok_error hc hrec] at h
        simp at h
      · obtain ⟨es', en', dn'⟩ := t
        obtain ⟨hsub, hen, henT, hdnF, hcov⟩ := ih hrec
        rw [filterAux_cons_ok_ok hc hrec] at h
        have hcn : classifyName cfg e.ext_name = .ok b := hc
        cases b
        · simp only [Bool.false_eq_true, if_false] at h
          injection h with h
          injection h with h1 h
          injection h with h2 h3
          subst h1; subst h2; subst h3
          refine ⟨hsub.cons e, hen, henT, ?_, ?_⟩
          · intro n hn
            rcases List.mem_cons.mp hn with rfl | hn'
            · exact hcn
            · exact hdnF n hn'
          · intro n
            simp only [List.map_cons, List.mem_cons]
            rw [← hcov n]
            tauto
        · simp only [if_true] at h
          injection h with h
          injection h with h1 h
          injection h with h2 h3
          subst h1; subst h2; subst h3
          refine ⟨hsub.cons₂ e, by simp [hen], ?_, hdnF, ?_⟩
          · intro n hn
            rcases List.mem_cons.mp hn with rfl | hn'
            · exact hcn
            · exact henT n hn'
          · intro n
            simp only [List.map_cons, List.mem_cons]
            rw [← hcov n]
            tauto

theorem filterAux_total {cfg : RawConfig} : ∀ (exts : List Extension),
    (∀ e ∈ exts, exceptOk (classify cfg e) = true) →
    ∃ es en dn, filterEnabledAux cfg exts = .ok (es, en, dn) := by
  intro exts
  induction exts with
  | nil => intro _; exact ⟨[], [], [], rfl⟩
  | cons e rest ih =>
    intro h
    obtain ⟨es, en, dn, hrec⟩ := ih (fun x hx => h x (by simp [hx]))
    rcases hc : classify cfg e with exc | b
    · have hok := h e (by simp)
      rw [hc] at hok
      simp [exceptOk] at hok
    · rw [filterAux_cons_ok_ok hc hrec]
      cases b
      · exact ⟨es, en, e.ext_name :: dn, by simp⟩
      · exact ⟨e :: es, e.ext_name :: en, dn, by simp⟩

theorem filterAux_error_mid {cfg : RawConfig} : ∀ (pre : List Extension) (e : Extension)
    (post : List Extension) (exc : PyExc),
    (∀ q ∈ pre, exceptOk (classify cfg q) = true) →
    classify cfg e = .error exc →
    filterEnabledAux cfg (pre ++ e :: post) = .error exc := by
  intro pre
  induction pre with
  | nil =>
    intro e post exc _ hc
    simpa using filterAux_cons_error hc
  | cons q pre ih =>
    intro e post exc h hc
    rcases hq : classify cfg q with exc' | b
    · have hok := h q (by simp)
      rw [hq] at hok
      simp [exceptOk] at hok
    · rw [List.cons_append]
      exact filterAux_cons_ok_error hq (ih e post exc (fun x hx => h x (by simp [hx])) hc)

theorem validate_cons_quiet_error {q : Extension} {rest : List Extension} {exc : PyExc}
    (hq : stepRaises q = none) (hrec : validate_extensions rest = .error exc) :
    validate_extensions (q :: rest) = .error exc := by
  by_cases hqn : q.ext_name = q.entry_point.name
  · rcases hqr : q.entry_point.require with exc' | u
    · rcases exc' with m | m | m | m | m
      on_goal 1 =>
        rw [validate_cons_depmissing hqn hqr]
        exact hrec
      all_goals simp [stepRaises, hqn, hqr] at hq
    · cases u
      rcases hqe : q.validate_environment with exc' | u
      · rcases exc' with m | m | m | m | m
        on_goal 2 =>
          rw [validate_cons_env_exterror hqn hqr hqe]
          exact hrec
        all_goals simp [stepRaises, hqn, hqr, hqe] at hq
      · cases u
        rw [validate_cons_pass hqn hqr hqe, hrec]
        rfl
  · rw [validate_cons_mismatch hqn]
    exact hrec

theorem eraseId_ext_name (e : Extension) : (eraseId e).ext_name = e.ext_name := rfl

theorem eraseId_entry_point (e : Extension) : (eraseId e).entry_point = e.entry_point := rfl

theorem eraseId_env (e : Extension) :
    (eraseId e).validate_environment = e.validate_environment := rfl

theorem load_erase : ∀ (registry : List EntryPoint) (b b' : Nat),
    (load_extensions registry b).map (List.map eraseId) =
    (load_extensions registry b').map (List.map eraseId) := by
  intro registry
  induction registry with
  | nil => intro b b'; rfl
  | cons ep rest ih =>
    intro b b'
    rcases hl : ep.load false with exc | data
    · rw [load_cons_error b hl, load_cons_error b' hl]
    · rw [load_cons_ok b hl, load_cons_ok b' hl, except_map_map, except_map_map]
      have hih := ih (b + 1) (b' + 1)
      rcases h1 : load_extensions rest (b + 1) with exc1 | l1 <;>
        rcases h2 : load_extensions rest (b' + 1) with exc2 | l2 <;>
          rw [h1, h2] at hih <;>
            simp only [Except.map] at hih ⊢
      · exact hih
      · exact Except.noConfusion hih
      · exact Except.noConfusion hih
      · injection hih with hih
        simp [eraseId, hih]

theorem validate_erase : ∀ (exts : List Extension),
    validate_extensions (exts.map eraseId) =
      (validate_extensions exts).map (List.map eraseId) := by
  intro exts
  induction exts with
  | nil => rfl
  | cons e rest ih =>
    rw [List.map_cons]
    by_cases hname : e.ext_name = e.entry_point.name
    · have hname' : (eraseId e).ext_name = (eraseId e).entry_point.name := hname
      rcases hreq : e.entry_point.require with exc | u
      · rcases exc with m | m | m | m | m
        on_goal 1 =>
          have hreq' : (eraseId e).entry_point.require =
            Except.error (PyExc.distributionNotFound m) := hreq
          rw [validate_cons_depmissing hname' hreq', validate_cons_depmissing hname hreq]
          exact ih
        all_goals
          have hreq' : (eraseId e).entry_point.require = e.entry_point.require := rfl
          rw [hreq] at hreq'
          rw [validate_cons_require_raises hname' hreq' (by simp [isDistributionNotFoundExc]),
            validate_cons_require_raises hname hreq (by simp [isDistributionNotFoundExc])]
          rfl
      · cases u
        have hreq' : (eraseId e).entry_point.require = Except.ok () := hreq
        rcases henv : e.validate_environment with exc | u
        · rcases exc with m | m | m | m | m
          on_goal 2 =>
            have henv' : (eraseId e).validate_environment =
              Except.error (PyExc.extensionError m) := henv
            rw [validate_cons_env_exterror hname' hreq' henv',
              validate_cons_env_exterror hname hreq henv]
            exact ih
          all_goals
            have henv' : (eraseId e).validate_environment = e.validate_environment := rfl
            rw [henv] at henv'
            rw [validate_cons_env_raises hname' hreq' henv' (by simp [isExtensionErrorExc]),
              validate_cons_env_raises hname hreq henv (by simp [isExtensionErrorExc])]
            rfl
        · cases u
          have henv' : (eraseId e).validate_environment = Except.ok () := henv
          rw [validate_cons_pass hname' hreq' henv', validate_cons_pass hname hreq henv, ih,
            except_map_map, except_map_map]
          congr 1
    · have hname' : (eraseId e).ext_name ≠ (eraseId e).entry_point.name := hname
      rw [validate_cons_mismatch hname', validate_cons_mismatch hname]
      exact ih

theorem filterAux_erase (cfg : RawConfig) : ∀ (exts : List Extension),
    filterEnabledAux cfg (exts.map eraseId) =
      (filterEnabledAux cfg exts).map (fun t => (t.1.map eraseId, t.2.1, t.2.2)) := by
  intro exts
  induction exts with
  | nil => rfl
  | cons e rest ih =>
    rw [List.map_cons]
    rcases hc : classify cfg e with exc | b
    · have hcE : classify cfg (eraseId e) = Except.error exc := hc
      rw [filterAux_cons_error hcE, filterAux_cons_error hc]
      rfl
    · have hcE : classify cfg (eraseId e) = Except.ok b := hc
      rcases hrec : filterEnabledAux cfg rest with exc | t
      · have hrecE : filterEnabledAux cfg (rest.map eraseId) = .error exc := by
          rw [ih, hrec]
          rfl
        rw [filterAux_cons_ok_error hcE hrecE, filterAux_cons_ok_error hc hrec]
        rfl
      · obtain ⟨es, en, dn⟩ := t
        have hrecE : filterEnabledAux cfg (rest.map eraseId) = .ok (es.map eraseId, en, dn) := by
          rw [ih, hrec]
          rfl
        rw [filterAux_cons_ok_ok hcE hrecE, filterAux_cons_ok_ok hc hrec]
        cases b <;> simp [Except.map, eraseId_ext_name, List.map_cons]

theorem map_ext_name_of_erase {l l' : List Extension}
    (h : l.map eraseId = l'.map eraseId) :
    l.map Extension.ext_name = l'.map Extension.ext_name := by
  have h2 := congrArg (List.map Extension.ext_name) h
  simpa [List.map_map, Function.comp, eraseId_ext_name] using h2

theorem validate_erase_rel {l1 l2 : List Extension} (h : l1.map eraseId = l2.map eraseId) :
    (validate_extensions l1).map (List.map eraseId) =
    (validate_extensions l2).map (List.map eraseId) := by
  rw [← validate_erase, ← validate_erase, h]

theorem filter_names_of_erase (cfg : RawConfig) {v1 v2 : List Extension}
    (h : v1.map eraseId = v2.map eraseId) :
    (filter_enabled_extensions cfg v1).map (fun l => l.map Extension.ext_name) =
    (filter_enabled_extensions cfg v2).map (fun l => l.map Extension.ext_name) := by
  have h1 := filterAux_erase cfg v1
  have h2 := filterAux_erase cfg v2
  rw [h] at h1
  rw [h1] at h2
  unfold filter_enabled_extensions
  rcases ha : filterEnabledAux cfg v1 with exc1 | t1 <;>
    rcases hb : filterEnabledAux cfg v2 with exc2 | t2 <;>
      rw [ha, hb] at h2 <;>
        simp only [Except.map] at h2 ⊢
  · injection h2 with h2
    rw [h2]
  · exact Except.noConfusion h2
  · exact Except.noConfusion h2
  · obtain ⟨es1, en1, dn1⟩ := t1
    obtain ⟨es2, en2, dn2⟩ := t2
    injection h2 with h2
    simp only [Prod.mk.injEq] at h2
    simp only [Except.ok.injEq]
    exact map_ext_name_of_erase h2.1

/-- Sample entry point whose extension passes every check. -/
def epGood : EntryPoint :=
  { name := "good", require_outcome := .ok (),
    load_outcome := .ok { dist_name := "Mopidy-Good", ext_name := "good", version := "1.0",
                          env_outcome := .ok () } }

/-- Sample extension instance produced from `epGood`. -/
def extGood : Extension :=
  { obj_id := 0, dist_name := "Mopidy-Good", ext_name := "good", version := "1.0",
    validate_environment := .ok (), entry_point := epGood }

/-- Sample entry point registered as `b` whose extension self-reports `c`. -/
def epMis : EntryPoint :=
  { name := "b", require_outcome := .ok (),
    load_outcome := .ok { dist_name := "Mopidy-B", ext_name := "c", version := "1.0",
                          env_outcome := .ok () } }

/-- Sample extension with an identity mismatch (`ext_name` is `c`, entry
point name is `b`). -/
def extMismatch : Extension :=
  { obj_id := 1, dist_name := "Mopidy-B", ext_name := "c", version := "1.0",
    validate_environment := .ok (), entry_point := epMis }

/-- Sample entry point whose `require()` raises `DistributionNotFound`. -/
def epNoDep : EntryPoint :=
  { name := "nodep", require_outcome := .error (.distributionNotFound "pylast"),
    load_outcome := .ok { dist_name := "Mopidy-NoDep", ext_name := "nodep", version := "1.0",
                          env_outcome := .ok () } }

/-- Sample extension whose dependency check fails. -/
def extNoDep : Extension :=
  { obj_id := 2, dist_name := "Mopidy-NoDep", ext_name := "nodep", version := "1.0",
    validate_environment := .ok (), entry_point := epNoDep }

/-- Sample extension whose `validate_environment()` raises `ExtensionError`. -/
def extBadEnv : Extension :=
  { obj_id := 3, dist_name := "Mopidy-BadEnv", ext_name := "badenv", version := "1.0",
    validate_environment := .error (.extensionError "no sound card"),
    entry_point := { name := "badenv", require_outcome := .ok (),
                     load_outcome := .ok { dist_name := "Mopidy-BadEnv", ext_name := "badenv",
                                           version := "1.0",
                                           env_outcome := .error (.extensionError "no sound card") } } }

/-- Sample extension whose `validate_environment()` raises an exception
that is not an `ExtensionError`. -/
def extBoom : Extension :=
  { obj_id := 4, dist_name := "Mopidy-Boom", ext_name := "boom", version := "1.0",
    validate_environment := .error (.other "boom"),
    entry_point := { name := "boom", require_outcome := .ok (),
                     load_outcome := .ok { dist_name := "Mopidy-Boom", ext_name := "boom",
                                           version := "1.0",
                                           env_outcome := .error (.other "boom") } } }

/-- Sample extension whose name has no section in `cfgGood`. -/
def extMissing : Extension :=
  { obj_id := 5, dist_name := "Mopidy-Missing", ext_name := "missing", version := "1.0",
    validate_environment := .ok (),
    entry_point := { name := "missing", require_outcome := .ok (),
                     load_outcome := .ok { dist_name := "Mopidy-Missing", ext_name := "missing",
                                           version := "1.0", env_outcome := .ok () } } }

/-- Sample entry point whose factory fails to instantiate. -/
def epBroken : EntryPoint :=
  { name := "broken", require_outcome := .ok (),
    load_outcome := .error (.other "ImportError: no module named broken") }

/-- Sample raw configuration enabling `good` and disabling `nodep`. -/
def cfgGood : RawConfig :=
  [("good", [("enabled", "true")]), ("nodep", [("enabled", "false")])]

/-- Sample raw configuration whose `enabled` value for `good` is outside
the boolean vocabulary. -/
def cfgBad : RawConfig := [("good", [("enabled", "maybe")])]

/-- Decidable predicate: the extension has at least one of the three
expected (caught) failure conditions: an identity mismatch, a dependency
check raising `DistributionNotFound`, or an environment check raising
`ExtensionError`. -/
def hasExpectedFailure (e : Extension) : Bool :=
  (e.ext_name != e.entry_point.name) ||
    isDistributionNotFound e.entry_point.require ||
    isExtensionError e.validate_environment

theorem dropReason_total (e : Extension) (hq : stepRaises e = none)
    (hp : passesAllChecks e = false) : ∃ r, dropReason e = some r := by
  by_cases hname : e.ext_name = e.entry_point.name
  · rcases hreq : e.entry_point.require with exc | u
    · rcases exc with m | m | m | m | m
      on_goal 1 => exact ⟨.dependencyNotFound, by simp [dropReason, hname, hreq]⟩
      all_goals simp [stepRaises, hname, hreq] at hq
    · cases u
      rcases henv : e.validate_environment with exc | u
      · rcases exc with m | m | m | m | m
        on_goal 2 => exact ⟨.environmentError, by simp [dropReason, hname, hreq, henv]⟩
        all_goals simp [stepRaises, hname, hreq, henv] at hq
      · cases u
        simp [passesAllChecks, hname, hreq, henv, exceptOk] at hp
  · exact ⟨.identityMismatch, by simp [dropReason, hname]⟩

/-- C1: For every input list of extensions, the output of
`validate_extensions` — whenever the call returns normally — is a
subsequence of its input (a subset preserving relative order), and every
element excluded from the output fails exactly one of the three documented
checks: identity mismatch, dependency not found, or environment error. -/
theorem validate_output_sublist_and_unique_drop_reason
    (exts valid : List Extension) (h : validate_extensions exts = .ok valid) :
    valid.Sublist exts ∧
    ∀ e ∈ exts, e ∉ valid → ∃! r : DropReason, dropReason e = some r := by
  have hq := validate_ok_quiet h
  have hfil := validate_ok_filter h
  subst hfil
  refine ⟨List.filter_sublist _, ?_⟩
  intro e he hnv
  have hnp : passesAllChecks e = false := by
    by_contra hp
    exact hnv (List.mem_filter.mpr ⟨he, by simpa using hp⟩)
  obtain ⟨r, hr⟩ := dropReason_total e (hq e he) hnp
  exact ⟨r, hr, fun r' hr' => Option.some.inj (hr'.symm.trans hr)⟩

/-- C1 witness: on a concrete run with an identity-mismatching extension
and a fully valid one, the conclusion holds. -/
theorem validate_output_sublist_and_unique_drop_reason_witness :
    ([extGood] : List Extension).Sublist [extMismatch, extGood] ∧
    ∀ e ∈ [extMismatch, extGood], e ∉ ([extGood] : List Extension) →
      ∃! r : DropReason, dropReason e = some r :=
  validate_output_sublist_and_unique_drop_reason [extMismatch, extGood] [extGood] (by decide)

/-- C3: `validate_extensions` never raises for any of the three expected
exclusion reasons: when no extension's processing raises an unexpected
exception, the call returns normally, and each extension with an identity
mismatch, a `DistributionNotFound` from `require()`, or an
`ExtensionError` from `validate_environment()` is merely absent from the
result. -/
theorem expectedFailure_not_pass (e : Extension) (hf : hasExpectedFailure e = true) :
    passesAllChecks e = false := by
  unfold hasExpectedFailure at hf
  unfold passesAllChecks
  by_cases hname : e.ext_name = e.entry_point.name
  · rcases hreq : e.entry_point.require with exc | u
    · simp [hreq, exceptOk]
    · rcases henv : e.validate_environment with exc | u
      · simp [henv, exceptOk]
      · rw [hreq, henv] at hf
        simp [hname, isDistributionNotFound, isExtensionError, exceptOk] at hf
  · simp [hname, exceptOk, beq_iff_eq]

theorem validate_expected_failures_never_raise (exts : List Extension)
    (h : ∀ e ∈ exts, stepRaises e = none) :
    ∃ valid, validate_extensions exts = .ok valid ∧
      ∀ e ∈ exts, hasExpectedFailure e = true → e ∉ valid := by
  refine ⟨exts.filter passesAllChecks, validate_quiet exts h, ?_⟩
  intro e _ hf hmem
  have hp := (List.mem_filter.mp hmem).2
  rw [expectedFailure_not_pass e hf] at hp
  exact Bool.noConfusion hp

/-- C3 witness: a concrete list exercising all three expected failure
reasons plus one valid extension. -/
theorem validate_expected_failures_never_raise_witness :
    ∃ valid, validate_extensions [extMismatch, extNoDep, extBadEnv, extGood] = .ok valid ∧
      ∀ e ∈ [extMismatch, extNoDep, extBadEnv, extGood], hasExpectedFailure e = true →
        e ∉ valid :=
  validate_expected_failures_never_raise [extMismatch, extNoDep, extBadEnv, extGood] (by decide)

/-- C4: `validate_extensions` applies the checks in the fixed order
identity, dependency, environment, short-circuiting on the first failure:
for an extension (with a unique object identity) whose identity check
fails, neither `require()` nor `validate_environment()` is ever invoked on
it; for one whose identity check passes but whose dependency check fails
with `DistributionNotFound`, `validate_environment()` is never invoked on
it.  Invocations are read off the instrumented `validate_extensions_traced`,
whose result coincides with `validate_extensions` (`traced_fst`). -/
theorem validate_checks_fixed_order_short_circuit (exts : List Extension) (e : Extension)
    (_he : e ∈ exts) (hu : ∀ x ∈ exts, x.obj_id = e.obj_id → x = e) :
    (e.ext_name ≠ e.entry_point.name →
      MethodCall.requireCall e.obj_id ∉ (validate_extensions_traced exts).2 ∧
      MethodCall.envCall e.obj_id ∉ (validate_extensions_traced exts).2) ∧
    (e.ext_name = e.entry_point.name →
      isDistributionNotFound e.entry_point.require = true →
      MethodCall.envCall e.obj_id ∉ (validate_extensions_traced exts).2) := by
  constructor
  · intro hmis
    constructor
    · intro hmem
      obtain ⟨x, hx, hid, hnm⟩ := trace_requireCall_mem hmem
      rw [hu x hx hid] at hnm
      exact hmis hnm
    · intro hmem
      obtain ⟨x, hx, hid, hnm, _⟩ := trace_envCall_mem hmem
      rw [hu x hx hid] at hnm
      exact hmis hnm
  · intro _ hdnf hmem
    obtain ⟨x, hx, hid, _, hro⟩ := trace_envCall_mem hmem
    rw [hu x hx hid] at hro
    rw [hro] at hdnf
    simp [isDistributionNotFound] at hdnf

/-- C4 witness: concrete run containing a mismatching extension. -/
theorem validate_checks_fixed_order_short_circuit_witness :
    (extMismatch.ext_name ≠ extMismatch.entry_point.name →
      MethodCall.requireCall extMismatch.obj_id ∉
        (validate_extensions_traced [extMismatch, extNoDep, extGood]).2 ∧
      MethodCall.envCall extMismatch.obj_id ∉
        (validate_extensions_traced [extMismatch, extNoDep, extGood]).2) ∧
    (extMismatch.ext_name = extMismatch.entry_point.name →
      isDistributionNotFound extMismatch.entry_point.require = true →
      MethodCall.envCall extMismatch.obj_id ∉
        (validate_extensions_traced [extMismatch, extNoDep, extGood]).2) :=
  validate_checks_fixed_order_short_circuit [extMismatch, extNoDep, extGood] extMismatch
    (by decide) (by decide)

/-- C5: an extension whose self-reported `ext_name` differs from its entry
point's registered name never appears in the output of
`validate_extensions`, regardless of its dependency and environment checks
succeeding. -/
theorem identity_mismatch_never_validated (exts valid : List Extension) (e : Extension)
    (h : validate_extensions exts = .ok valid) (_he : e ∈ exts)
    (hmis : e.ext_name ≠ e.entry_point.name) : e ∉ valid := by
  have hfil := validate_ok_filter h
  subst hfil
  intro hmem
  have hp := (List.mem_filter.mp hmem).2
  simp only [passesAllChecks, Bool.and_eq_true, beq_iff_eq] at hp
  exact hmis hp.1.1

/-- C5 witness: `extMismatch` has succeeding dependency and environment
checks yet is dropped. -/
theorem identity_mismatch_never_validated_witness :
    extMismatch ∉ ([extGood] : List Extension) :=
  identity_mismatch_never_validated [extMismatch, extGood] [extGood] extMismatch
    (by decide) (by decide) (by decide)

/-- C2 counterexample: the claim quantifies over every configuration view
containing an `enabled` entry for each extension's name, but a raw value
outside the boolean vocabulary makes `filter_enabled_extensions` raise
(the coercion `ValueError` propagates), so no partition is returned at
all.  Here `cfgBad` binds `enabled` to `maybe` for `good`. -/
theorem filter_enabled_raises_on_malformed_value :
    filter_enabled_extensions cfgBad [extGood] = .error (.valueError "maybe") := by decide

/-- C2 (amended): for every configuration view containing an `enabled`
entry for each extension's name whose raw value the boolean rule accepts,
`filter_enabled_extensions` does not mutate its input (the enabled output
is a sublist of the input, the very same descriptors in input order), and
the enabled and disabled name lists it computes are disjoint and together
hold exactly the input extension names. -/
theorem filter_enabled_pure_partition (cfg : RawConfig) (exts : List Extension)
    (h : ∀ e ∈ exts, exceptOk (classify cfg e) = true) :
    ∃ es en dn,
      filterEnabledAux cfg exts = .ok (es, en, dn) ∧
      filter_enabled_extensions cfg exts = .ok es ∧
      es.Sublist exts ∧
      en = es.map Extension.ext_name ∧
      (∀ n, (n ∈ en ∨ n ∈ dn) ↔ n ∈ exts.map Extension.ext_name) ∧
      (∀ n, n ∈ en → n ∉ dn) := by
  obtain ⟨es, en, dn, hok⟩ := filterAux_total exts h
  obtain ⟨hsub, hen, henT, hdnF, hcov⟩ := filterAux_ok_elim hok
  refine ⟨es, en, dn, hok, ?_, hsub, hen, hcov, ?_⟩
  · show (filterEnabledAux cfg exts).map (fun t => t.1) = .ok es
    rw [hok]
    rfl
  · intro n hn hd
    have h1 := henT n hn
    have h2 := hdnF n hd
    rw [h1] at h2
    injection h2 with h2
    exact Bool.noConfusion h2

/-- C2 witness: a concrete enabled/disabled partition. -/
theorem filter_enabled_pure_partition_witness :
    ∃ es en dn,
      filterEnabledAux cfgGood [extGood, extNoDep] = .ok (es, en, dn) ∧
      filter_enabled_extensions cfgGood [extGood, extNoDep] = .ok es ∧
      es.Sublist [extGood, extNoDep] ∧
      en = es.map Extension.ext_name ∧
      (∀ n, (n ∈ en ∨ n ∈ dn) ↔ n ∈ ([extGood, extNoDep] : List Extension).map Extension.ext_name) ∧
      (∀ n, n ∈ en → n ∉ dn) :=
  filter_enabled_pure_partition cfgGood [extGood, extNoDep] (by decide)

/-- C6: if an extension's `validate_environment()` raises any exception
other than `ExtensionError`, `validate_extensions` does not catch it: the
exception propagates to the caller and the validation pass terminates
early — the result is that error, whatever extensions follow. -/
theorem validate_env_unexpected_exception_propagates
    (pre post : List Extension) (e : Extension) (exc : PyExc)
    (hpre : ∀ q ∈ pre, stepRaises q = none)
    (hname : e.ext_name = e.entry_point.name)
    (hreq : e.entry_point.require = .ok ())
    (henv : e.validate_environment = .error exc)
    (hx : isExtensionErrorExc exc = false) :
    validate_extensions (pre ++ e :: post) = .error exc := by
  revert hpre
  induction pre with
  | nil =>
    intro _
    simpa using validate_cons_env_raises hname hreq henv hx
  | cons q pre ih =>
    intro hpre
    rw [List.cons_append]
    exact validate_cons_quiet_error (hpre q (by simp))
      (ih (fun x hx' => hpre x (by simp [hx'])))

/-- C6 witness: `extBoom` raises a non-`ExtensionError`; the whole pass
errors even though `extGood` precedes it and another extension follows. -/
theorem validate_env_unexpected_exception_propagates_witness :
    validate_extensions [extGood, extBoom, extBadEnv] = .error (.other "boom") :=
  validate_env_unexpected_exception_propagates [extGood] [extBadEnv] extBoom (.other "boom")
    (by decide) (by decide) (by decide) (by decide) (by decide)

/-- C7: `load_extensions` instantiates every registration record's factory
without requiring its declared dependencies to be satisfied — the
hypothesis constrains only `load(require=False)`, leaving each record's
`require()` outcome arbitrary, so a missing dependency alone never makes
discovery of that entry raise — attaches the originating registration
record to each new extension instance, and returns the extensions in the
registry's enumeration order (one per record). -/
theorem load_extensions_ignores_missing_dependencies :
    ∀ (registry : List EntryPoint) (base : Nat),
    (∀ r ∈ registry, exceptOk (r.load false) = true) →
    ∃ exts, load_extensions registry base = .ok exts ∧
      exts.map Extension.entry_point = registry := by
  intro registry
  induction registry with
  | nil => intro base _; exact ⟨[], rfl, rfl⟩
  | cons ep rest ih =>
    intro base h
    rcases hl : ep.load false with exc | data
    · have hok := h ep (by simp)
      rw [hl] at hok
      simp [exceptOk] at hok
    · obtain ⟨exts, hload, hmap⟩ := ih (base + 1) (fun r hr => h r (by simp [hr]))
      refine ⟨{ obj_id := base, dist_name := data.dist_name, ext_name := data.ext_name,
                version := data.version, validate_environment := data.env_outcome,
                entry_point := ep } :: exts, ?_, ?_⟩
      · rw [load_cons_ok base hl, hload]
        rfl
      · simp [List.map_cons, hmap]

/-- C7 witness: `epNoDep`'s `require()` raises `DistributionNotFound`, yet
discovery returns normally with both records attached in order. -/
theorem load_extensions_ignores_missing_dependencies_witness :
    ∃ exts, load_extensions [epGood, epNoDep] 0 = .ok exts ∧
      exts.map Extension.entry_point = [epGood, epNoDep] :=
  load_extensions_ignores_missing_dependencies [epGood, epNoDep] 0 (by decide)

/-- C8: if any registration record's factory fails to instantiate (entry
point loading or construction raises), `load_extensions` propagates that
exception uncaught, aborting the whole discovery pass: the result is that
error — no list is returned, whatever records follow. -/
theorem load_extensions_factory_failure_aborts
    (pre : List EntryPoint) (r : EntryPoint) (post : List EntryPoint) (base : Nat)
    (exc : PyExc)
    (hpre : ∀ q ∈ pre, exceptOk (q.load false) = true)
    (hr : r.load false = .error exc) :
    load_extensions (pre ++ r :: post) base = .error exc := by
  revert base hpre
  induction pre with
  | nil =>
    intro base _
    simpa using load_cons_error base hr
  | cons q pre ih =>
    intro base hpre
    rcases hq : q.load false with exc' | data
    · have hok := hpre q (by simp)
      rw [hq] at hok
      simp [exceptOk] at hok
    · rw [List.cons_append, load_cons_ok base hq,
        ih (base + 1) (fun x hx => hpre x (by simp [hx]))]
      rfl

/-- C8 witness: `epBroken`'s factory raises; with a healthy record before
it and another after it, discovery returns that error and no list. -/
theorem load_extensions_factory_failure_aborts_witness :
    load_extensions [epGood, epBroken, epNoDep] 0 =
      .error (.other "ImportError: no module named broken") :=
  load_extensions_factory_failure_aborts [epGood] epBroken [epNoDep] 0
    (.other "ImportError: no module named broken") (by decide) (by decide)

/-- C9: running the discover → validate → filter pipeline twice against an
unchanged registry and unchanged configuration yields the same
enabled-name result both times: the outcome is independent of the
allocation counter that distinguishes the object identities of the two
passes. -/
theorem pipeline_enabled_names_deterministic (registry : List EntryPoint) (cfg : RawConfig)
    (b b' : Nat) : pipeline registry cfg b = pipeline registry cfg b' := by
  unfold pipeline
  have hload := load_erase registry b b'
  rcases h1 : load_extensions registry b with exc1 | l1 <;>
    rcases h2 : load_extensions registry b' with exc2 | l2 <;>
      rw [h1, h2] at hload <;>
        simp only [Except.map] at hload <;>
          simp only [Bind.bind, Except.bind]
  · injection hload with hl
    rw [hl]
  · exact Except.noConfusion hload
  · exact Except.noConfusion hload
  · injection hload with hl
    have hval := validate_erase_rel hl
    rcases hv1 : validate_extensions l1 with e1 | v1 <;>
      rcases hv2 : validate_extensions l2 with e2 | v2 <;>
        rw [hv1, hv2] at hval <;>
          simp only [Except.map] at hval <;>
            simp only [Except.bind]
    · injection hval with hv
      rw [hv]
    · exact Except.noConfusion hval
    · exact Except.noConfusion hval
    · injection hval with hv
      have hfil := filter_names_of_erase cfg hv
      rcases hf1 : filter_enabled_extensions cfg v1 with f1 | es1 <;>
        rcases hf2 : filter_enabled_extensions cfg v2 with f2 | es2 <;>
          rw [hf1, hf2] at hfil <;>
            simp only [Except.map] at hfil <;>
              simp only [Except.bind]
      · injection hfil with hf
        rw [hf]
      · exact Except.noConfusion hfil
      · exact Except.noConfusion hfil
      · injection hfil with hf
        simp only [pure, Except.pure]
        rw [hf]

/-- C10: when an extension's `ext_name` has no section in `raw_config`, or
its section lacks an `enabled` key, and every extension before it
classifies without error, `filter_enabled_extensions` raises that
`KeyError` rather than treating the extension as disabled: the result is
that error — whatever extensions follow are not classified and no result
list is returned. -/
theorem filter_enabled_missing_key_raises (cfg : RawConfig) (pre post : List Extension)
    (e : Extension) (k : String)
    (hpre : ∀ q ∈ pre, exceptOk (classify cfg q) = true)
    (he : lookupEnabled cfg e = .error (.keyError k)) :
    filter_enabled_extensions cfg (pre ++ e :: post) = .error (.keyError k) := by
  have hc : classify cfg e = .error (.keyError k) := classify_error_of_lookup he
  have hmid := filterAux_error_mid pre e post (.keyError k) hpre hc
  show (filterEnabledAux cfg (pre ++ e :: post)).map (fun t => t.1) = _
  rw [hmid]
  rfl

/-- C10 witness: `extMissing` has no section in `cfgGood`; with `extGood`
before it and `extNoDep` after it, the call returns the `KeyError`. -/
theorem filter_enabled_missing_key_raises_witness :
    filter_enabled_extensions cfgGood [extGood, extMissing, extNoDep] =
      .error (.keyError "missing") :=
  filter_enabled_missing_key_raises cfgGood [extGood] [extNoDep] extMissing "missing"
    (by decide) (by decide)

end Mopidy
